import Mathlib

/-!
Shallow embedding of the CipherSim core (hash engine, attack simulator,
password analyzer) together with theorems checking the specification's
claims against it.

Conventions of the embedding:
* Python `int` values become `Nat`/`Int`; Python floats arising from exact
  arithmetic on integers become `ℚ`; `math.log2` becomes `Real.logb 2`.
* Generators become `List` values produced in generation order.
* Wall-clock timing, console output and file I/O are outside the model; a
  wordlist file is represented by the optional list of its raw lines.
* Exception-absorbing wrappers around the external argon2 / bcrypt
  verifiers are represented by opaque boolean-valued parameters.
-/

set_option autoImplicit false

namespace CipherSim

/-! ## Hash engine (`core/hash_engine.py`) -/

/-- `HashAlgorithm` enumeration from `hash_engine.py`. -/
inductive HashAlgorithm where
  | argon2id
  | scrypt
  | pbkdf2_sha256
  | pbkdf2_sha512
  | bcrypt
deriving DecidableEq

/-- `HashEngine.GPU_PERFORMANCE` table (hashes/second). -/
def GPU_PERFORMANCE : HashAlgorithm → Nat
  | .argon2id => 50000
  | .scrypt => 100000
  | .pbkdf2_sha256 => 10000000
  | .pbkdf2_sha512 => 5000000
  | .bcrypt => 500000

/-- The rate picked inside `estimate_crack_time`:
`self.GPU_PERFORMANCE[algorithm] if use_gpu else 1000`. -/
def hashes_per_second (a : HashAlgorithm) (use_gpu : Bool) : Nat :=
  if use_gpu then GPU_PERFORMANCE a else 1000

/-- Truncation toward zero, as Python's `int()` applied to a float. -/
def int_trunc (q : ℚ) : ℤ :=
  if 0 ≤ q then ⌊q⌋ else ⌈q⌉

/-- Fixed-point rendering with two decimals of a nonnegative rational, as
Python's `:.2f` format specifier. -/
def fmt2 (q : ℚ) : String :=
  let n : Nat := (round (q * 100)).toNat
  let frac : Nat := n % 100
  toString (n / 100) ++ "." ++
    (if frac < 10 then "0" ++ toString frac else toString frac)

/-- Rendering with no decimals of a nonnegative rational, as Python's
`:.0f` format specifier. -/
def fmt0 (q : ℚ) : String :=
  toString (round q).toNat

/-- `HashEngine._format_time`: banded human-readable duration. -/
def format_time (seconds : ℚ) : String :=
  if seconds < 1 then fmt2 (seconds * 1000) ++ " milliseconds"
  else if seconds < 60 then fmt2 seconds ++ " seconds"
  else if seconds < 3600 then fmt2 (seconds / 60) ++ " minutes"
  else if seconds < 86400 then fmt2 (seconds / 3600) ++ " hours"
  else if seconds < 31536000 then fmt2 (seconds / 86400) ++ " days"
  else if seconds < 31536000 * 100 then fmt2 (seconds / 31536000) ++ " years"
  else if seconds < 31536000 * 1000 then fmt0 (seconds / 31536000) ++ " years"
  else if seconds < 31536000 * 1000000 then
    fmt0 (seconds / 31536000 / 1000) ++ " thousand years"
  else if seconds < 31536000 * 1000000000 then
    fmt0 (seconds / 31536000 / 1000000) ++ " million years"
  else
    fmt0 (seconds / 31536000 / 1000000000) ++ " billion years"

/-- `CrackEstimate` dataclass (timing-free fields). -/
structure CrackEstimate where
  seconds : ℚ
  human_readable : String
  hashes_required : Nat
  algorithm : HashAlgorithm
deriving DecidableEq

/-- `HashEngine.estimate_crack_time`. -/
def estimate_crack_time (password_length charset_size : Nat)
    (algorithm : HashAlgorithm) (use_gpu : Bool) : CrackEstimate :=
  let total_combinations := charset_size ^ password_length
  let avg_combinations := total_combinations / 2
  let rate := hashes_per_second algorithm use_gpu
  let seconds : ℚ := (avg_combinations : ℚ) / (rate : ℚ)
  ⟨seconds, format_time seconds, avg_combinations, algorithm⟩

/-- `HashEngine.verify_password`.  The external argon2 verifier (returning
`True` on success, an exception — hence `False` — otherwise) and
`bcrypt.checkpw` are abstracted as boolean-valued parameters; for the other
algorithms the source returns `True` unconditionally (a stub). -/
def verify_password (argon2_verify_ok : String → String → Bool)
    (bcrypt_checkpw : String → String → Bool)
    (password hash_value : String) (algorithm : HashAlgorithm) : Bool :=
  match algorithm with
  | .argon2id => argon2_verify_ok hash_value password
  | .bcrypt => bcrypt_checkpw password hash_value
  | _ => true

/-! ## Attack simulator (`core/attack_simulator.py`) -/

/-- `AttackMode` enumeration. -/
inductive AttackMode where
  | dictionary
  | brute_force
  | hybrid
  | mask
  | credential_stuffing
deriving DecidableEq

/-- `AttackConfig` dataclass.  `wordlist` stands for the optional wordlist
file: `none` when no path is given or the file does not exist, otherwise
the list of its raw lines. -/
structure AttackConfig where
  mode : AttackMode
  target_hash : String
  algorithm : HashAlgorithm
  max_attempts : Nat
  speed_limit : Nat
  charset : String
  min_length : Nat
  max_length : Nat
  wordlist : Option (List String)
  mask : Option String
deriving DecidableEq

/-- `AttackResult` dataclass (minus the wall-clock `time_seconds` field). -/
structure AttackResult where
  success : Bool
  password_found : Option String
  attempts : Nat
  mode : AttackMode
  stopped_by_limit : Bool
deriving DecidableEq

/-- `AttackSimulator._default_wordlist`. -/
def default_wordlist : List String :=
  ["password", "123456", "12345678", "qwerty", "abc123",
   "password123", "admin", "letmein", "welcome", "monkey",
   "dragon", "master", "sunshine", "princess", "football",
   "iloveyou", "shadow", "michael", "superman", "trustno1"]

/-- `AttackSimulator._dictionary_generator`: stream the stripped non-empty
lines of the wordlist, or the default list when it is unavailable. -/
def dictionary_generator (cfg : AttackConfig) : List String :=
  match cfg.wordlist with
  | none => default_wordlist
  | some lines => (lines.map String.trim).filter (fun l => l ≠ "")

/-- All words of a fixed length over a charset in the order of
`itertools.product(charset, repeat=length)`: leftmost position slowest. -/
def wordsOfLength (cs : List Char) : Nat → List (List Char)
  | 0 => [[]]
  | n + 1 => cs.flatMap (fun c => (wordsOfLength cs n).map (fun w => c :: w))

/-- `AttackSimulator._brute_force_generator`: lengths
`range(min_length, max_length + 1)`, product order within each length. -/
def brute_force_generator (charset : List Char)
    (min_length max_length : Nat) : List String :=
  (List.range' min_length (max_length + 1 - min_length)).flatMap
    (fun len => (wordsOfLength charset len).map (fun w => String.mk w))

/-- Python `str.capitalize`: first character uppercased, rest lowercased. -/
def str_capitalize (s : String) : String :=
  match s.data with
  | [] => ""
  | c :: cs => String.mk (c.toUpper :: cs.map Char.toLower)

/-- Python `str.upper` (ASCII). -/
def str_upper (s : String) : String := String.mk (s.data.map Char.toUpper)

/-- Python `str.lower` (ASCII). -/
def str_lower (s : String) : String := String.mk (s.data.map Char.toLower)

/-- The leet substitution `leet_map.get(c.lower(), c)` of the hybrid
generator. -/
def leet_char (c : Char) : Char :=
  if c.toLower = 'a' then '4'
  else if c.toLower = 'e' then '3'
  else if c.toLower = 'i' then '1'
  else if c.toLower = 'o' then '0'
  else if c.toLower = 's' then '5'
  else if c.toLower = 't' then '7'
  else c

/-- Leet-speak variant of a word. -/
def leet_word (s : String) : String := String.mk (s.data.map leet_char)

/-- The mutations the hybrid generator yields for one dictionary word, in
source order. -/
def hybrid_mutations (word : String) : List String :=
  [word, str_capitalize word, str_upper word, str_lower word] ++
  (["1", "123", "2024", "2025", "!"].flatMap
    (fun num => [word ++ num, str_capitalize word ++ num])) ++
  (if leet_word word ≠ word then [leet_word word] else [])

/-- `AttackSimulator._hybrid_generator`. -/
def hybrid_generator (cfg : AttackConfig) : List String :=
  (dictionary_generator cfg).flatMap hybrid_mutations

/-- `string.ascii_lowercase`. -/
def lowercase_chars : List Char := "abcdefghijklmnopqrstuvwxyz".data

/-- `string.ascii_uppercase`. -/
def uppercase_chars : List Char := "ABCDEFGHIJKLMNOPQRSTUVWXYZ".data

/-- `string.digits`. -/
def digit_chars : List Char := "0123456789".data

/-- The literal special-character set of the `?s` mask placeholder. -/
def mask_special_chars : List Char := "!@#$%^&*()_+-=[]\x7b\x7d|;:,.<>?".data

/-- `string.punctuation`. -/
def punctuation_chars : List Char :=
  "!\"#$%&\x27()*+,-./:;<=>?@[\\]^_\x60\x7b|\x7d~".data

/-- `string.ascii_letters + string.digits + string.punctuation`, the `?a`
mask placeholder set. -/
def all_chars : List Char :=
  lowercase_chars ++ uppercase_chars ++ digit_chars ++ punctuation_chars

/-- The per-position character sets parsed from a mask by
`AttackSimulator._mask_generator`.  A `?` followed by a further character
consumes both: a recognized placeholder contributes its class, an
unrecognized one contributes nothing; any other character (including a
trailing `?`) is a literal one-character set. -/
def mask_charsets : List Char → List (List Char)
  | [] => []
  | '?' :: c :: rest =>
      if c = 'l' then lowercase_chars :: mask_charsets rest
      else if c = 'u' then uppercase_chars :: mask_charsets rest
      else if c = 'd' then digit_chars :: mask_charsets rest
      else if c = 's' then mask_special_chars :: mask_charsets rest
      else if c = 'a' then all_chars :: mask_charsets rest
      else mask_charsets rest
  | c :: rest => [c] :: mask_charsets rest

/-- `itertools.product(*charsets)`: Cartesian product in left-to-right
position order, leftmost position varying slowest. -/
def product_lists : List (List Char) → List (List Char)
  | [] => [[]]
  | cs :: rest => cs.flatMap (fun c => (product_lists rest).map (fun w => c :: w))

/-- `AttackSimulator._mask_generator`: falls back to brute force when the
mask is `None` or empty (`if not config.mask`). -/
def mask_generator (cfg : AttackConfig) : List String :=
  match cfg.mask with
  | none => brute_force_generator cfg.charset.data cfg.min_length cfg.max_length
  | some m =>
      if m = "" then
        brute_force_generator cfg.charset.data cfg.min_length cfg.max_length
      else
        (product_lists (mask_charsets m.data)).map (fun w => String.mk w)

/-- The fake credential pairs of
`AttackSimulator._credential_stuffing_generator`. -/
def demo_credentials : List (String × String) :=
  [("user1@example.com", "Password123!"),
   ("testuser@demo.com", "Welcome2024"),
   ("admin@test.local", "Admin@123"),
   ("demo@email.com", "Summer2024!")]

/-- `AttackSimulator._credential_stuffing_generator`. -/
def credential_stuffing_generator (_cfg : AttackConfig) : List String :=
  demo_credentials.map Prod.snd

/-- The candidate-generator dispatch at the top of `simulate_attack`. -/
def generate_candidates (cfg : AttackConfig) : List String :=
  match cfg.mode with
  | .dictionary => dictionary_generator cfg
  | .brute_force =>
      brute_force_generator cfg.charset.data cfg.min_length cfg.max_length
  | .hybrid => hybrid_generator cfg
  | .mask => mask_generator cfg
  | .credential_stuffing => credential_stuffing_generator cfg

/-- Outcome of the candidate loop inside `simulate_attack`. -/
structure LoopOutcome where
  found : Bool
  attempts : Nat
  stopped_by_limit : Bool
deriving DecidableEq

/-- The candidate loop of `simulate_attack`: match check, then increment,
then limit check (`attempts >= max_attempts`), then stop-flag check, once
per candidate (the rate-limiting sleep has no effect on the result). -/
def attack_loop (target : String) (max_attempts : Nat) (stop_requested : Bool) :
    List String → Nat → LoopOutcome
  | [], attempts => ⟨false, attempts, false⟩
  | candidate :: rest, attempts =>
    if candidate = target then ⟨true, attempts, false⟩
    else if max_attempts ≤ attempts + 1 then ⟨false, attempts + 1, true⟩
    else if stop_requested then ⟨false, attempts + 1, false⟩
    else attack_loop target max_attempts stop_requested rest (attempts + 1)

/-- `AttackSimulator` instance state: the cooperative stop flag. -/
structure AttackSimulator where
  stop_requested : Bool
deriving DecidableEq

/-- `AttackSimulator.__init__` sets `_stop_requested = False`. -/
def AttackSimulator.init : AttackSimulator := ⟨false⟩

/-- `AttackSimulator.stop` sets the flag; nothing ever clears it. -/
def AttackSimulator.stop (_s : AttackSimulator) : AttackSimulator := ⟨true⟩

/-- `AttackSimulator.simulate_attack`: runs the candidate loop and packages
an `AttackResult`; the instance state is returned unchanged. -/
def AttackSimulator.simulate_attack (s : AttackSimulator) (cfg : AttackConfig)
    (target_password : String) : AttackResult × AttackSimulator :=
  let out := attack_loop target_password cfg.max_attempts s.stop_requested
    (generate_candidates cfg) 0
  (⟨out.found,
    if out.found then some target_password else none,
    out.attempts, cfg.mode, out.stopped_by_limit⟩, s)

/-! ## Password analyzer (`modules/password_analyzer.py`) -/

/-- `PasswordAnalyzer._calculate_charset_size`. -/
def charset_size (password : String) : Nat :=
  let chars := password.data
  let size :=
    (if chars.any (fun c => c ∈ lowercase_chars) then 26 else 0) +
    (if chars.any (fun c => c ∈ uppercase_chars) then 26 else 0) +
    (if chars.any (fun c => c ∈ digit_chars) then 10 else 0) +
    (if chars.any (fun c => c ∈ punctuation_chars) then 32 else 0) +
    (if chars.any (fun c => c = ' ') then 1 else 0)
  if 0 < size then size else 1

/-- `PasswordAnalyzer._calculate_entropy`:
`log2(charset_size ** len(password))`, `0.0` for an empty password. -/
noncomputable def entropy_bits (password : String) : ℝ :=
  if password.length = 0 ∨ charset_size password = 0 then 0
  else Real.logb 2 ((charset_size password ^ password.length : Nat) : ℝ)

/-- `PasswordAnalyzer._calculate_score`, abstracted over the entropy value
and the severities of the detected patterns. -/
def calculate_score (password_length : Nat) (entropy : ℚ)
    (severities : List String) : ℤ :=
  let base : ℤ := min 100 (int_trunc (entropy / 128 * 100))
  let deducted := severities.foldl
    (fun s sev =>
      if sev = "high" then s - 25
      else if sev = "medium" then s - 15
      else if sev = "low" then s - 5
      else s) base
  let bonused :=
    if 16 ≤ password_length then deducted + 10
    else if 12 ≤ password_length then deducted + 5
    else deducted
  max 0 (min 100 bonused)

/-- The score formula as the specification words it: floor-based start,
per-severity deductions by count, single length-bonus tier, clamp. -/
def score_spec (password_length : Nat) (entropy : ℚ)
    (severities : List String) : ℤ :=
  let base : ℤ := min 100 ⌊entropy / 128 * 100⌋
  let deducted := base - 25 * (severities.count "high" : ℤ)
    - 15 * (severities.count "medium" : ℤ)
    - 5 * (severities.count "low" : ℤ)
  let bonused :=
    if 16 ≤ password_length then deducted + 10
    else if 12 ≤ password_length then deducted + 5
    else deducted
  max 0 (min 100 bonused)

/-- Base-`cs.length` value of a word, leftmost position most significant:
the 0-based rank of the word inside `wordsOfLength cs w.length`, i.e. its
position in the lexicographic product order over `cs`. -/
def word_rank (cs : List Char) (w : List Char) : Nat :=
  w.foldl (fun acc c => acc * cs.length + cs.indexOf c) 0

/-! ## Concrete configurations used by the claims -/

/-- Brute-force configuration of the `"zz"` scenario: charset `"az"`,
lengths 1–2, default `max_attempts`/`speed_limit`. -/
def zz_config : AttackConfig :=
  ⟨.brute_force, "", .pbkdf2_sha256, 1000000, 10000, "az", 1, 2, none, none⟩

/-- Mask configuration carrying the mask `"?u?l?l?d"`. -/
def uld_config : AttackConfig :=
  ⟨.mask, "", .pbkdf2_sha256, 1000000, 10000, "az", 1, 2, none, some "?u?l?l?d"⟩

/-- Mask configuration carrying the degenerate mask `"?x"` (one
unrecognized placeholder, no literals). -/
def qx_config : AttackConfig :=
  ⟨.mask, "", .pbkdf2_sha256, 1000000, 10000, "az", 1, 2, none, some "?x"⟩

/-! ## Helper lemmas about the generators -/

theorem sum_map_const {α : Type} (l : List α) (n : ℕ) :
    (l.map (fun _ => n)).sum = l.length * n := by
  induction l with
  | nil => simp
  | cons a t ih => simp [ih, Nat.succ_mul, Nat.add_comm]

theorem product_lists_length (css : List (List Char)) :
    (product_lists css).length = (css.map List.length).prod := by
  induction css with
  | nil => rfl
  | cons cs rest ih =>
    simp [product_lists, List.length_flatMap, Function.comp_def,
      List.length_map, sum_map_const, ih]

theorem mem_product_lists {css : List (List Char)} {w : List Char} :
    w ∈ product_lists css ↔ List.Forall₂ (fun c cs => c ∈ cs) w css := by
  induction css generalizing w with
  | nil => simp [product_lists, List.forall₂_nil_right_iff]
  | cons cs rest ih =>
    simp only [product_lists, List.mem_flatMap, List.mem_map,
      List.forall₂_cons_right_iff, ih]
    constructor
    · rintro ⟨c, hc, w', hw', rfl⟩
      exact ⟨c, w', hc, hw', rfl⟩
    · rintro ⟨c, w', hc, hw', rfl⟩
      exact ⟨c, hc, w', hw', rfl⟩

theorem wordsOfLength_length (cs : List Char) (n : ℕ) :
    (wordsOfLength cs n).length = cs.length ^ n := by
  induction n with
  | zero => rfl
  | succ n ih =>
    simp [wordsOfLength, List.length_flatMap, Function.comp_def,
      List.length_map, sum_map_const, ih, pow_succ, Nat.mul_comm]

theorem mem_wordsOfLength {cs : List Char} {n : ℕ} {w : List Char} :
    w ∈ wordsOfLength cs n ↔ w.length = n ∧ ∀ c ∈ w, c ∈ cs := by
  induction n generalizing w with
  | zero =>
    simp only [wordsOfLength, List.mem_singleton, List.length_eq_zero]
    constructor
    · rintro rfl
      exact ⟨rfl, fun c hc => absurd hc (List.not_mem_nil c)⟩
    · rintro ⟨rfl, -⟩
      rfl
  | succ n ih =>
    simp only [wordsOfLength, List.mem_flatMap, List.mem_map]
    constructor
    · rintro ⟨c, hc, w', hw', rfl⟩
      obtain ⟨hlen, hmem⟩ := ih.mp hw'
      refine ⟨by simp [hlen], ?_⟩
      intro x hx
      rcases List.mem_cons.mp hx with rfl | hx
      · exact hc
      · exact hmem x hx
    · rintro ⟨hlen, hmem⟩
      cases w with
      | nil => simp at hlen
      | cons c w' =>
        refine ⟨c, hmem c (List.mem_cons_self _ _), w',
          ih.mpr ⟨by simpa using hlen, ?_⟩, rfl⟩
        intro x hx
        exact hmem x (List.mem_cons_of_mem _ hx)

theorem mk_mem_map_iff (ws : List (List Char)) (s : String) :
    s ∈ ws.map String.mk ↔ s.data ∈ ws := by
  cases s with
  | mk d =>
    constructor
    · intro h
      obtain ⟨w, hw, he⟩ := List.mem_map.mp h
      exact (congrArg String.data he) ▸ hw
    · intro h
      exact List.mem_map.mpr ⟨d, h, rfl⟩

theorem mem_brute_force_generator {cs : List Char} {minL maxL : ℕ} {s : String} :
    s ∈ brute_force_generator cs minL maxL ↔
      minL ≤ s.length ∧ s.length ≤ maxL ∧ ∀ c ∈ s.data, c ∈ cs := by
  unfold brute_force_generator
  rw [List.mem_flatMap]
  constructor
  · rintro ⟨len, hlen, hs⟩
    rw [List.mem_range'_1] at hlen
    rw [mk_mem_map_iff] at hs
    obtain ⟨hwl, hmem⟩ := mem_wordsOfLength.mp hs
    have hslen : s.length = len := hwl
    refine ⟨by omega, by omega, hmem⟩
  · rintro ⟨h1, h2, hmem⟩
    refine ⟨s.length, ?_, ?_⟩
    · rw [List.mem_range'_1]
      omega
    · rw [mk_mem_map_iff]
      exact mem_wordsOfLength.mpr ⟨rfl, hmem⟩

theorem foldl_rank (cs : List Char) (w : List Char) (a : ℕ) :
    w.foldl (fun acc c => acc * cs.length + cs.indexOf c) a
      = a * cs.length ^ w.length + word_rank cs w := by
  induction w generalizing a with
  | nil => simp [word_rank]
  | cons c w' ih =>
    have h1 := ih (a * cs.length + cs.indexOf c)
    have h2 := ih (0 * cs.length + cs.indexOf c)
    simp only [List.foldl_cons, word_rank, List.length_cons]
    rw [h1, h2]
    ring

theorem word_rank_lt {cs : List Char} {w : List Char} (h : ∀ c ∈ w, c ∈ cs) :
    word_rank cs w < cs.length ^ w.length := by
  induction w with
  | nil => simp [word_rank]
  | cons c w' ih =>
    have hidx : cs.indexOf c < cs.length :=
      List.indexOf_lt_length.mpr (h c (List.mem_cons_self _ _))
    have hr : word_rank cs w' < cs.length ^ w'.length :=
      ih (fun x hx => h x (List.mem_cons_of_mem _ hx))
    have hsplit : word_rank cs (c :: w')
        = cs.indexOf c * cs.length ^ w'.length + word_rank cs w' := by
      simp only [word_rank, List.foldl_cons]
      simpa using foldl_rank cs w' (0 * cs.length + cs.indexOf c)
    rw [hsplit, List.length_cons]
    calc cs.indexOf c * cs.length ^ w'.length + word_rank cs w'
        < cs.indexOf c * cs.length ^ w'.length + cs.length ^ w'.length := by
          omega
      _ = (cs.indexOf c + 1) * cs.length ^ w'.length := by ring
      _ ≤ cs.length * cs.length ^ w'.length := Nat.mul_le_mul_right _ hidx
      _ = cs.length ^ (w'.length + 1) := by ring

theorem flatMap_map_getElem? (l : List Char) (ws : List (List Char)) (c : Char)
    (j : ℕ) (hc : c ∈ l) (hj : j < ws.length) :
    (l.flatMap (fun c' => ws.map (fun w => c' :: w)))[l.indexOf c * ws.length + j]?
      = (ws[j]?).map (fun w => c :: w) := by
  induction l with
  | nil => cases hc
  | cons c₀ l' ih =>
    rw [List.flatMap_cons]
    by_cases hcc : c = c₀
    · subst hcc
      rw [List.indexOf_cons_self]
      simp only [Nat.zero_mul, Nat.zero_add]
      rw [List.getElem?_append, if_pos (by simpa using hj), List.getElem?_map]
    · rw [List.indexOf_cons_ne l' (fun h => hcc h.symm)]
      have hlen : (ws.map (fun w => c₀ :: w)).length = ws.length := by simp
      have hmul : (List.indexOf c l').succ * ws.length
          = List.indexOf c l' * ws.length + ws.length := Nat.succ_mul _ _
      rw [List.getElem?_append_right (by omega)]
      have harith : (List.indexOf c l').succ * ws.length + j
          - (ws.map (fun w => c₀ :: w)).length
          = List.indexOf c l' * ws.length + j := by
        rw [hlen]
        omega
      rw [harith]
      have hc' : c ∈ l' := by
        rcases List.mem_cons.mp hc with rfl | h
        · exact absurd rfl hcc
        · exact h
      exact ih hc'

theorem wordsOfLength_rank (cs : List Char) (w : List Char)
    (h : ∀ c ∈ w, c ∈ cs) :
    (wordsOfLength cs w.length)[word_rank cs w]? = some w := by
  induction w with
  | nil => rfl
  | cons c w' ih =>
    have hw' : ∀ x ∈ w', x ∈ cs := fun x hx => h x (List.mem_cons_of_mem _ hx)
    have hc : c ∈ cs := h c (List.mem_cons_self _ _)
    have hrank : word_rank cs (c :: w')
        = cs.indexOf c * (wordsOfLength cs w'.length).length + word_rank cs w' := by
      rw [wordsOfLength_length]
      simp only [word_rank, List.foldl_cons]
      simpa using foldl_rank cs w' (0 * cs.length + cs.indexOf c)
    have hj : word_rank cs w' < (wordsOfLength cs w'.length).length := by
      rw [wordsOfLength_length]
      exact word_rank_lt hw'
    rw [List.length_cons]
    show (wordsOfLength cs (w'.length + 1))[word_rank cs (c :: w')]? = some (c :: w')
    rw [hrank, wordsOfLength,
      flatMap_map_getElem? cs (wordsOfLength cs w'.length) c (word_rank cs w') hc hj,
      ih hw']
    rfl

/-! ## Helper lemmas about the simulation loop -/

theorem attack_loop_found (t : String) (maxA : ℕ) (cands : List String) (a : ℕ)
    (hmem : t ∈ cands) (hlt : a + cands.indexOf t < maxA) :
    attack_loop t maxA false cands a = ⟨true, a + cands.indexOf t, false⟩ := by
  induction cands generalizing a with
  | nil => cases hmem
  | cons c rest ih =>
    by_cases hct : c = t
    · subst hct
      rw [List.indexOf_cons_self]
      simp [attack_loop]
    · have hmem' : t ∈ rest := by
        rcases List.mem_cons.mp hmem with h | h
        · exact absurd h.symm hct
        · exact h
      rw [List.indexOf_cons_ne rest hct] at hlt ⊢
      have hstep : ¬ (maxA ≤ a + 1) := by omega
      have harr : a + (rest.indexOf t).succ = (a + 1) + rest.indexOf t := by omega
      rw [harr]
      simp only [attack_loop, if_neg hct, if_neg hstep, Bool.false_eq_true,
        if_false]
      exact ih (a + 1) hmem' (by omega)

theorem attack_loop_limit (t : String) (maxA : ℕ) (cands : List String) (a : ℕ)
    (ha : a < maxA) (hlen : maxA ≤ a + cands.length)
    (hnone : ∀ s ∈ cands.take (maxA - a), s ≠ t) :
    attack_loop t maxA false cands a = ⟨false, maxA, true⟩ := by
  induction cands generalizing a with
  | nil =>
    simp only [List.length_nil] at hlen
    omega
  | cons c rest ih =>
    have htake : maxA - a = (maxA - (a + 1)) + 1 := by omega
    have hct : c ≠ t := by
      apply hnone c
      rw [htake, List.take_succ_cons]
      exact List.mem_cons_self _ _
    by_cases hfin : maxA ≤ a + 1
    · have hmax : a + 1 = maxA := by omega
      simp only [attack_loop, if_neg hct, if_pos hfin, hmax]
      rw [if_pos le_rfl]
    · simp only [attack_loop, if_neg hct, if_neg hfin, Bool.false_eq_true,
        if_false]
      apply ih (a + 1) (by omega)
        (by simp only [List.length_cons] at hlen; omega)
      intro s hs
      apply hnone s
      rw [htake, List.take_succ_cons]
      exact List.mem_cons_of_mem _ hs

theorem attack_loop_stop (t : String) (maxA : ℕ) (cands : List String) (a : ℕ) :
    attack_loop t maxA true cands a = attack_loop t maxA true (cands.take 1) a
      ∧ (attack_loop t maxA true cands a).attempts ≤ a + 1 := by
  cases cands with
  | nil => exact ⟨rfl, by simp [attack_loop]⟩
  | cons c rest =>
    have htake : (c :: rest).take 1 = [c] := by
      simp
    rw [htake]
    by_cases hct : c = t
    · constructor <;> simp [attack_loop, hct]
    · by_cases hfin : maxA ≤ a + 1 <;>
        constructor <;> simp [attack_loop, hct, hfin]

/-! ## Helper lemmas about the score -/

theorem foldl_deduction (sevs : List String) (base : ℤ) :
    sevs.foldl (fun s sev =>
      if sev = "high" then s - 25
      else if sev = "medium" then s - 15
      else if sev = "low" then s - 5
      else s) base
    = base - 25 * (sevs.count "high" : ℤ) - 15 * (sevs.count "medium" : ℤ)
      - 5 * (sevs.count "low" : ℤ) := by
  induction sevs generalizing base with
  | nil => simp
  | cons sev rest ih =>
    simp only [List.foldl_cons, List.count_cons, beq_iff_eq, ih]
    by_cases h1 : sev = "high"
    · subst h1
      simp only [if_pos rfl, if_true]
      norm_num
      push_cast
      ring
    · by_cases h2 : sev = "medium"
      · subst h2
        simp only [if_neg h1, if_pos rfl]
        norm_num
        push_cast
        ring
      · by_cases h3 : sev = "low"
        · subst h3
          simp only [if_neg h1, if_neg h2, if_pos rfl]
          norm_num
          ring
        · simp only [if_neg h1, if_neg h2, if_neg h3, Nat.add_zero]

theorem calculate_score_eq_spec (len : ℕ) (e : ℚ) (sevs : List String)
    (he : 0 ≤ e) : calculate_score len e sevs = score_spec len e sevs := by
  have hnn : (0 : ℚ) ≤ e / 128 * 100 :=
    mul_nonneg (div_nonneg he (by norm_num)) (by norm_num)
  simp only [calculate_score, score_spec, int_trunc, if_pos hnn,
    foldl_deduction]

/-! ## Helper lemmas about formatting and entropy -/

theorem format_time_half_ms : format_time (1 / 2000) = "0.50 milliseconds" := by
  have h1 : ((1 : ℚ) / 2000) < 1 := by norm_num
  have h2 : (1 : ℚ) / 2000 * 1000 = 1 / 2 := by norm_num
  have h3 : round ((1 : ℚ) / 2 * 100) = 50 := by
    have h50 : (1 : ℚ) / 2 * 100 = 50 := by norm_num
    rw [h50, round_eq, Int.floor_eq_iff]
    norm_num
  simp only [format_time, if_pos h1, h2, fmt2, h3]
  decide

theorem charset_size_pos (p : String) : 0 < charset_size p := by
  unfold charset_size
  dsimp only
  have h : ∀ n : ℕ, 0 < (if 0 < n then n else 1) := by
    intro n
    split
    · assumption
    · norm_num
  exact h _

/-! ## Claim theorems -/

/-- C1 (code_bug): under Scrypt and both PBKDF2 variants, `verify_password`
returns `true` for every password and stored hash — the re-derive-and-compare
path is the stub `return True` — contradicting the claim (and the function's
own docstring) that a wrong password yields `false`. -/
theorem c1_verify_password_stub :
    ∀ (argon2_verify_ok bcrypt_checkpw : String → String → Bool)
      (password hash_value : String),
      verify_password argon2_verify_ok bcrypt_checkpw password hash_value
        .scrypt = true
      ∧ verify_password argon2_verify_ok bcrypt_checkpw password hash_value
        .pbkdf2_sha256 = true
      ∧ verify_password argon2_verify_ok bcrypt_checkpw password hash_value
        .pbkdf2_sha512 = true := by
  intro av bc p h
  exact ⟨rfl, rfl, rfl⟩

/-- C2: when the target occurs in the candidate stream at 0-based rank
below `max_attempts`, the loop ends found with `attempts` equal to that
rank (the candidates strictly before the match); with no match among the
first `max_attempts` candidates it ends with `attempts = max_attempts` and
`stopped_by_limit`; the concrete `"zz"` brute-force run succeeds with
`password_found = "zz"` after 5 attempts — the 0-based rank of `"zz"`. -/
theorem c2_simulate_attack_spec :
    (∀ (t : String) (cands : List String) (maxA : ℕ),
        t ∈ cands → cands.indexOf t < maxA →
        attack_loop t maxA false cands 0 = ⟨true, cands.indexOf t, false⟩)
    ∧ (∀ (t : String) (cands : List String) (maxA : ℕ),
        0 < maxA → maxA ≤ cands.length →
        (∀ s ∈ cands.take maxA, s ≠ t) →
        attack_loop t maxA false cands 0 = ⟨false, maxA, true⟩)
    ∧ (AttackSimulator.init.simulate_attack zz_config "zz").1
        = ⟨true, some "zz", 5, .brute_force, false⟩ := by
  refine ⟨?_, ?_, by decide⟩
  · intro t cands maxA hmem hlt
    simpa using attack_loop_found t maxA cands 0 hmem (by omega)
  · intro t cands maxA h1 h2 h3
    apply attack_loop_limit t maxA cands 0 h1 (by omega)
    simpa using h3

/-- Witness for C2 at a concrete instance. -/
theorem c2_simulate_attack_spec_witness :
    attack_loop "b" 10 false ["a", "b"] 0
      = ⟨true, List.indexOf "b" ["a", "b"], false⟩ :=
  c2_simulate_attack_spec.1 "b" ["a", "b"] 10 (by decide) (by decide)

/-- C3 counterexample: with `use_gpu=false` the Scrypt rate is the flat
1000 H/s, not the claimed per-algorithm CPU calibration value 2000. -/
theorem c3_cpu_rate_counterexample :
    hashes_per_second .scrypt false = 1000 ∧ (1000 : ℕ) ≠ 2000
    ∧ (estimate_crack_time 1 2 .scrypt false).seconds = 1 / 1000 := by
  refine ⟨rfl, by decide, ?_⟩
  norm_num [estimate_crack_time, hashes_per_second]

/-- C3 (amended): with `use_gpu=false`, `estimate_crack_time` uses a single
flat rate of 1000 hashes/second for every algorithm, so the CPU estimate is
independent of the algorithm. -/
theorem c3_cpu_rate_flat :
    (∀ a : HashAlgorithm, hashes_per_second a false = 1000)
    ∧ (∀ (len cs : ℕ) (a b : HashAlgorithm),
        (estimate_crack_time len cs a false).seconds
          = (estimate_crack_time len cs b false).seconds
        ∧ (estimate_crack_time len cs a false).hashes_required
          = (estimate_crack_time len cs b false).hashes_required)
    ∧ (∀ (len cs : ℕ) (a : HashAlgorithm),
        (estimate_crack_time len cs a false).seconds
          = ((cs ^ len / 2 : ℕ) : ℚ) / 1000) := by
  refine ⟨fun a => rfl, fun len cs a b => ⟨rfl, rfl⟩, fun len cs a => ?_⟩
  norm_num [estimate_crack_time, hashes_per_second]

/-- C4 counterexample: the mask `"?x"` — a `?` followed by an unrecognized
placeholder — contributes no position at all (the parser consumes both
characters and appends nothing), so the generator yields exactly one empty
candidate, instead of treating the characters as literal one-character
sets. -/
theorem c4_mask_unrecognized_counterexample :
    mask_generator qx_config = [""] ∧ mask_charsets ("?x".data) = [] := by
  exact ⟨by decide, by decide⟩

/-- C4 (amended): recognized placeholders map to their classes; a `?`
followed by an unrecognized character is skipped entirely, contributing no
position; a trailing `?`, or any character not opening a placeholder, is a
literal one-character set; the generator is the left-to-right Cartesian
product of the per-position sets; the mask `"?u?l?l?d"` yields exactly
26*26*26*10 = 175760 candidates, each of length 4 matching the class
constraints position by position. -/
theorem c4_mask_generator_spec :
    mask_charsets ("?u?l?l?d".data)
      = [uppercase_chars, lowercase_chars, lowercase_chars, digit_chars]
    ∧ (mask_generator uld_config).length = 175760
    ∧ (∀ s : String, s ∈ mask_generator uld_config ↔
        (s.length = 4 ∧ List.Forall₂ (fun c cls => c ∈ cls) s.data
          [uppercase_chars, lowercase_chars, lowercase_chars, digit_chars]))
    ∧ (∀ (c : Char) (rest : List Char),
        c ≠ 'l' → c ≠ 'u' → c ≠ 'd' → c ≠ 's' → c ≠ 'a' →
        mask_charsets ('?' :: c :: rest) = mask_charsets rest)
    ∧ mask_charsets ['?'] = [['?']]
    ∧ (∀ (c : Char) (rest : List Char), c ≠ '?' →
        mask_charsets (c :: rest) = [c] :: mask_charsets rest) := by
  have hcs : mask_charsets ("?u?l?l?d".data)
      = [uppercase_chars, lowercase_chars, lowercase_chars, digit_chars] := by
    decide
  have hgen : mask_generator uld_config
      = (product_lists (mask_charsets ("?u?l?l?d".data))).map
        (fun w => String.mk w) := rfl
  refine ⟨hcs, ?_, ?_, ?_, by decide, ?_⟩
  · rw [hgen, List.length_map, product_lists_length, hcs]
    decide
  · intro s
    rw [hgen, mk_mem_map_iff, mem_product_lists, hcs]
    constructor
    · intro h
      refine ⟨?_, h⟩
      have := h.length_eq
      simpa using this
    · rintro ⟨-, h⟩
      exact h
  · intro c rest h1 h2 h3 h4 h5
    simp only [mask_charsets, if_neg h1, if_neg h2, if_neg h3, if_neg h4,
      if_neg h5]
  · intro c rest hc
    rw [mask_charsets.eq_def]
    split
    · simp_all
    · simp_all
    · rename_i c2 rest2 hnp heq
      injection heq with hh1 hh2
      rw [hh1, hh2]

/-- Witness for C4 at a concrete instance of the skip rule. -/
theorem c4_mask_generator_spec_witness :
    mask_charsets ('?' :: 'x' :: []) = mask_charsets [] :=
  c4_mask_generator_spec.2.2.2.1 'x' [] (by decide) (by decide) (by decide)
    (by decide) (by decide)

/-- C5: the brute-force generator — the concrete `"ab"` example; membership
is exactly the strings of charset characters with length between
`min_length` and `max_length`; each length block has `|charset| ^ len`
words; the 0-based position of a word within its length block is its
base-`|charset|` value (leftmost position most significant, i.e.
lexicographic product order with the leftmost position varying slowest). -/
theorem c5_brute_force_spec :
    brute_force_generator ("ab".data) 1 2 = ["a", "b", "aa", "ab", "ba", "bb"]
    ∧ (∀ (cs : List Char) (minL maxL : ℕ) (s : String),
        s ∈ brute_force_generator cs minL maxL ↔
          minL ≤ s.length ∧ s.length ≤ maxL ∧ ∀ c ∈ s.data, c ∈ cs)
    ∧ (∀ (cs : List Char) (n : ℕ), (wordsOfLength cs n).length = cs.length ^ n)
    ∧ (∀ (cs w : List Char), (∀ c ∈ w, c ∈ cs) →
        (wordsOfLength cs w.length)[word_rank cs w]? = some w) :=
  ⟨by decide, fun cs minL maxL s => mem_brute_force_generator,
    wordsOfLength_length, wordsOfLength_rank⟩

/-- Witness for C5 at a concrete instance of the rank characterization. -/
theorem c5_brute_force_spec_witness :
    (wordsOfLength ("ab".data) (['b', 'a'].length))[word_rank ("ab".data)
      ['b', 'a']]? = some ['b', 'a'] :=
  c5_brute_force_spec.2.2.2 ("ab".data) ['b', 'a'] (by decide)

/-- C6 counterexample: no InvalidConfiguration condition is signalled —
with `min_length > max_length` the brute-force generator returns normally
with an empty sequence, likewise with an empty charset, and a mask whose
derived pattern is empty yields the single empty candidate. -/
theorem c6_no_validation_counterexample :
    brute_force_generator ("ab".data) 2 1 = []
    ∧ brute_force_generator [] 1 2 = []
    ∧ mask_generator qx_config = [""] := by
  exact ⟨by decide, by decide, by decide⟩

/-- C6 (amended): candidate generation performs no configuration
validation: `min_length > max_length` yields an empty enumeration, an empty
charset yields an empty enumeration (for positive minimum length), and a
mask whose derived pattern is empty yields exactly one empty candidate;
generation always returns normally. -/
theorem c6_degenerate_configs :
    (∀ (cs : List Char) (minL maxL : ℕ), maxL < minL →
        brute_force_generator cs minL maxL = [])
    ∧ (∀ (minL maxL : ℕ), 1 ≤ minL → brute_force_generator [] minL maxL = [])
    ∧ (∀ (cfg : AttackConfig) (m : String), cfg.mask = some m → m ≠ "" →
        mask_charsets m.data = [] → mask_generator cfg = [""]) := by
  refine ⟨?_, ?_, ?_⟩
  · intro cs minL maxL h
    rw [List.eq_nil_iff_forall_not_mem]
    intro s hs
    obtain ⟨h1, h2, -⟩ := mem_brute_force_generator.mp hs
    omega
  · intro minL maxL h
    rw [List.eq_nil_iff_forall_not_mem]
    intro s hs
    obtain ⟨h1, -, h3⟩ := mem_brute_force_generator.mp hs
    have hsl : s.length = s.data.length := rfl
    cases hd : s.data with
    | nil =>
      rw [hd] at hsl
      simp at hsl
      omega
    | cons c cs' =>
      have hmem : c ∈ s.data := by
        rw [hd]
        exact List.mem_cons_self _ _
      exact absurd (h3 c hmem) (List.not_mem_nil c)
  · intro cfg m hm hne hempty
    unfold mask_generator
    rw [hm]
    dsimp only
    rw [if_neg hne, hempty]
    decide

/-- Witness for C6 at a concrete instance. -/
theorem c6_degenerate_configs_witness :
    brute_force_generator ("ab".data) 5 3 = [] :=
  c6_degenerate_configs.1 ("ab".data) 5 3 (by decide)

/-- C7: the score is `min(100, trunc(entropy/128*100))`, minus 25 per
high-severity pattern, 15 per medium, 5 per low (all compounding), plus 10
for length ≥ 16 else 5 for length ≥ 12, clamped to [0,100] — for
nonnegative entropy this coincides with the specification's floor-based
formula — and the clamp keeps every score in [0,100]. -/
theorem c7_score_spec :
    (∀ (len : ℕ) (e : ℚ) (sevs : List String), 0 ≤ e →
        calculate_score len e sevs = score_spec len e sevs)
    ∧ (∀ (len : ℕ) (e : ℚ) (sevs : List String),
        0 ≤ calculate_score len e sevs ∧ calculate_score len e sevs ≤ 100) := by
  constructor
  · exact calculate_score_eq_spec
  · intro len e sevs
    constructor
    · simp only [calculate_score]
      exact le_max_left _ _
    · simp only [calculate_score]
      exact max_le (by norm_num) (min_le_left _ _)

/-- Witness for C7 at a concrete instance. -/
theorem c7_score_spec_witness :
    calculate_score 0 0 [] = score_spec 0 0 []
    ∧ 0 ≤ calculate_score 0 0 [] :=
  ⟨c7_score_spec.1 0 0 [] le_rfl, (c7_score_spec.2 0 0 []).1⟩

/-- C8: `estimate_crack_time` computes the exact integer keyspace
`charset_size ^ length`, halves it by integer division as
`hashes_required`, and divides by the throughput to obtain `seconds`; the
(length 4, charset 10, PBKDF2-SHA256, GPU) instance yields 5000 hashes,
0.0005 seconds and the rendering "0.50 milliseconds". -/
theorem c8_estimate_crack_time_spec :
    (∀ (len cs : ℕ) (a : HashAlgorithm) (gpu : Bool),
        (estimate_crack_time len cs a gpu).hashes_required = cs ^ len / 2
        ∧ (estimate_crack_time len cs a gpu).seconds
            = ((cs ^ len / 2 : ℕ) : ℚ) / ((hashes_per_second a gpu : ℕ) : ℚ))
    ∧ (estimate_crack_time 4 10 .pbkdf2_sha256 true).hashes_required = 5000
    ∧ (estimate_crack_time 4 10 .pbkdf2_sha256 true).seconds = (0.0005 : ℚ)
    ∧ (estimate_crack_time 4 10 .pbkdf2_sha256 true).human_readable
        = "0.50 milliseconds" := by
  refine ⟨fun len cs a gpu => ⟨rfl, rfl⟩, by decide, ?_, ?_⟩
  · norm_num [estimate_crack_time, hashes_per_second, GPU_PERFORMANCE]
  · have h : (estimate_crack_time 4 10 .pbkdf2_sha256 true).human_readable
        = format_time (((10 ^ 4 / 2 : ℕ) : ℚ) / ((10000000 : ℕ) : ℚ)) := rfl
    rw [h, show (((10 ^ 4 / 2 : ℕ) : ℚ) / ((10000000 : ℕ) : ℚ)) = 1 / 2000 by
      norm_num]
    exact format_time_half_ms

/-- C9 counterexample: `" "` and `"  "` share `charset_size = 1` and differ
in length, yet both have entropy 0 — strict monotonicity in length fails
for a fixed charset of size 1. -/
theorem c9_entropy_counterexample :
    charset_size " " = charset_size "  "
    ∧ (" " : String).length < ("  " : String).length
    ∧ ¬ entropy_bits " " < entropy_bits "  " := by
  have hcs1 : charset_size " " = 1 := by decide
  have hcs2 : charset_size "  " = 1 := by decide
  have hl1 : (" " : String).length = 1 := by decide
  have hl2 : ("  " : String).length = 2 := by decide
  have h1 : entropy_bits " " = 0 := by
    unfold entropy_bits
    rw [hcs1, hl1]
    norm_num
  have h2 : entropy_bits "  " = 0 := by
    unfold entropy_bits
    rw [hcs2, hl2]
    norm_num
  refine ⟨by rw [hcs1, hcs2], by rw [hl1, hl2]; omega, ?_⟩
  rw [h1, h2]
  exact lt_irrefl 0

/-- C9 (amended): for a common `charset_size` of at least 2, a strictly
longer password has strictly greater `entropy_bits` (for `charset_size`
1 — e.g. all-space passwords — entropy is 0 at every length, so the
unconditional claim fails). -/
theorem c9_entropy_monotone (p q : String)
    (hcs : charset_size p = charset_size q) (h2 : 2 ≤ charset_size p)
    (hlen : p.length < q.length) : entropy_bits p < entropy_bits q := by
  have hq0 : q.length ≠ 0 := by omega
  have hcq : charset_size q ≠ 0 := by omega
  have hq : entropy_bits q
      = Real.logb 2 ((charset_size q ^ q.length : ℕ) : ℝ) := by
    unfold entropy_bits
    rw [if_neg]
    push_neg
    exact ⟨hq0, hcq⟩
  by_cases hp0 : p.length = 0
  · have hp : entropy_bits p = 0 := by
      unfold entropy_bits
      rw [if_pos (Or.inl hp0)]
    rw [hp, hq]
    apply Real.logb_pos (by norm_num)
    exact_mod_cast Nat.one_lt_pow hq0 (by omega)
  · have hcp : charset_size p ≠ 0 := by omega
    have hp : entropy_bits p
        = Real.logb 2 ((charset_size p ^ p.length : ℕ) : ℝ) := by
      unfold entropy_bits
      rw [if_neg]
      push_neg
      exact ⟨hp0, hcp⟩
    rw [hp, hq, hcs]
    apply Real.logb_lt_logb (by norm_num)
    · exact_mod_cast pow_pos (by omega : 0 < charset_size q) p.length
    · exact_mod_cast Nat.pow_lt_pow_right (by omega : 1 < charset_size q) hlen

/-- Witness for C9 at a concrete instance. -/
theorem c9_entropy_monotone_witness : entropy_bits "a" < entropy_bits "ab" :=
  c9_entropy_monotone "a" "ab" (by decide) (by decide) (by decide)

/-- C10: `stop` sets the flag; `simulate_attack` returns the instance state
unchanged (nothing ever clears the flag); and once the flag is set every
run examines at most one candidate: its attempt count is at most 1 and the
loop result equals the loop run on the one-candidate prefix. -/
theorem c10_stop_flag_spec :
    (∀ s : AttackSimulator, (s.stop).stop_requested = true)
    ∧ (∀ (s : AttackSimulator) (cfg : AttackConfig) (t : String),
        (s.simulate_attack cfg t).2 = s)
    ∧ (∀ (s : AttackSimulator) (cfg : AttackConfig) (t : String),
        s.stop_requested = true →
        (s.simulate_attack cfg t).1.attempts ≤ 1
        ∧ attack_loop t cfg.max_attempts s.stop_requested
            (generate_candidates cfg) 0
          = attack_loop t cfg.max_attempts s.stop_requested
            ((generate_candidates cfg).take 1) 0) := by
  refine ⟨fun s => rfl, fun s cfg t => rfl, ?_⟩
  intro s cfg t hs
  constructor
  · show (attack_loop t cfg.max_attempts s.stop_requested
      (generate_candidates cfg) 0).attempts ≤ 1
    rw [hs]
    simpa using (attack_loop_stop t cfg.max_attempts
      (generate_candidates cfg) 0).2
  · rw [hs]
    exact (attack_loop_stop t cfg.max_attempts (generate_candidates cfg) 0).1

/-- Witness for C10 at a concrete instance. -/
theorem c10_stop_flag_spec_witness :
    ((AttackSimulator.mk true).simulate_attack zz_config "zz").1.attempts ≤ 1 :=
  (c10_stop_flag_spec.2.2 ⟨true⟩ zz_config "zz" rfl).1

end CipherSim
